import Mathlib

/-!
Verification development for the FlashCard Studio application
(`creator.py` / `flashcard_app_v2.py`).

The embedding models, from the source:
  * Python `str.strip()` (`pyStrip`),
  * the persisted hierarchy class → topic → card list (`Store`),
  * the repository operations behind the Create Class / Create Topic /
    Save Card / Update / Delete buttons,
  * deck building for study mode (`all_cards` gathering plus
    `random.shuffle`),
  * the study-session state machine (show answer / got it / missed it /
    skip buttons),
  * the completion summary (`round(c/(c+w)*100)` and message tiers),
  * JSON persistence (`save_data` / `load_data`) at the document level,
  * `save_b64` with a faithful model of `base64.b64decode`.
-/

namespace Flash

/-! ### Python `str.strip()` -/

/-- The whitespace characters removed by Python's `str.strip()`
(ASCII space, tab, newline, carriage return, vertical tab, form feed). -/
def pyIsSpace (c : Char) : Bool :=
  c == ' ' || c == '\t' || c == '\n' || c == '\r' || c == '\x0b' || c == '\x0c'

/-- `str.strip()` on the character list: drop whitespace from the front,
then from the back. -/
def stripList (l : List Char) : List Char :=
  ((l.dropWhile pyIsSpace).reverse.dropWhile pyIsSpace).reverse

/-- Model of Python `str.strip()`. -/
def pyStrip (s : String) : String :=
  ⟨stripList s.data⟩

/-! ### Data model

`flashcard_data.json` holds `{class: {topic: [card, ...], ...}, ...}`.
Python dicts preserve insertion order, so both levels are modelled as
association lists. -/

/-- One flashcard as stored in the data file:
`{"question": ..., "answer_text": ..., "answer_image": ...}`. -/
structure Card where
  question : String
  answer_text : String
  answer_image : Option String
  deriving DecidableEq, Repr

/-- The topics of one class: topic name → ordered card list, in insertion
order. -/
abbrev Topics := List (String × List Card)

/-- The whole store: class name → topics, in insertion order. -/
abbrev Store := List (String × Topics)

/-- Lookup in an insertion-ordered dict (`d[k]`, first match). -/
def lookupA (k : String) : List (String × α) → Option α
  | [] => none
  | (k', v) :: rest => if k' = k then some v else lookupA k rest

/-- In-place update of an existing key (`d[k] = f d[k]`): the key keeps its
position, as Python dict assignment to a present key does. -/
def updAssoc (k : String) (f : α → α) : List (String × α) → List (String × α)
  | [] => []
  | (k', v) :: rest =>
      if k' = k then (k', f v) :: rest else (k', v) :: updAssoc k f rest

/-- The error taxonomy the specification assigns to the UI's rejection
paths. -/
inductive RepoError
  | DuplicateKey
  | InvalidInput
  | NotFound
  | OutOfRange
  deriving DecidableEq, Repr

/-! ### Repository operations -/

/-- "Create Class" button: strip the name; a blank name is rejected
(the handler body is skipped — surfaced as `InvalidInput` in the spec's
taxonomy), an existing name warns "Class already exists."
(`DuplicateKey`), otherwise `data[nc] = {}` inserts an empty topic map at
the end. -/
def createClass (store : Store) (name : String) : Except RepoError Store :=
  let n := pyStrip name
  if n = "" then .error .InvalidInput
  else if (lookupA n store).isSome then .error .DuplicateKey
  else .ok (store ++ [(n, [])])

/-- "Create Topic" button: strip the name; blank rejected, duplicate topic
warns, otherwise `data[selected_class][nt] = []` appends an empty card
list. A missing class (impossible through the UI's selectbox) is
`NotFound`. -/
def createTopic (store : Store) (cls name : String) : Except RepoError Store :=
  let n := pyStrip name
  if n = "" then .error .InvalidInput
  else
    match lookupA cls store with
    | none => .error .NotFound
    | some topics =>
        if (lookupA n topics).isSome then .error .DuplicateKey
        else .ok (updAssoc cls (fun t => t ++ [(n, [])]) store)

/-- `listClasses`: `list(data.keys())`. -/
def listClasses (store : Store) : List String :=
  store.map Prod.fst

/-- "Save Card" button on a topic's card list: rejected when
`q.strip()` is falsy ("Please enter a question."), otherwise appends
`{"question": q.strip(), "answer_text": a_text.strip(), "answer_image":
img_path}`. -/
def appendCard (cards : List Card) (q a_text : String) (img_path : Option String) :
    Option (List Card) :=
  if pyStrip q = "" then none
  else some (cards ++ [{ question := pyStrip q, answer_text := pyStrip a_text,
                         answer_image := img_path }])

/-- "💾 Update" button of the edit form for card `i`: assigns
`question = eq.strip()`, `answer_text = ea.strip()`, and replaces
`answer_image` only when a new image `ni` was uploaded. An invalid index
(impossible through the UI, which renders one form per existing card)
leaves the list unchanged. -/
def updateCard (cards : List Card) (i : Nat) (eq ea : String) (ni : Option String) :
    List Card :=
  match cards.get? i with
  | none => cards
  | some c =>
      cards.set i { question := pyStrip eq, answer_text := pyStrip ea,
                    answer_image := match ni with
                                    | some p => some p
                                    | none => c.answer_image }

/-- The "💾 Update" handler at store level:
`data[sel_class][sel_topic][i][...] = ...`. -/
def updateCardStore (store : Store) (cls top : String) (i : Nat)
    (eq ea : String) (ni : Option String) : Store :=
  updAssoc cls (updAssoc top (fun cards => updateCard cards i eq ea ni)) store

/-! ### Deck building (study mode) -/

/-- A deck entry: `{**c, "_topic": t}` — the card's fields plus the
`_topic` tag naming the topic it came from. -/
structure TaggedCard where
  card : Card
  tag : String
  deriving DecidableEq, Repr

/-- The `all_cards` comprehension for "All Topics":
`[{**c, "_topic": t} for t, cards in data[study_class].items() for c in cards]`. -/
def allCardsOf (store : Store) (cls : String) : List TaggedCard :=
  ((lookupA cls store).getD []).flatMap fun tc => tc.2.map fun c => ⟨c, tc.1⟩

/-- One iteration of `random.shuffle`'s Fisher–Yates loop: exchange the
elements at positions `i` and `j` (`x[i], x[j] = x[j], x[i]`). -/
def listSwap (l : List α) (i j : Nat) : List α :=
  if h : i < l.length ∧ j < l.length then
    (l.set i (l.get ⟨j, h.2⟩)).set j (l.get ⟨i, h.1⟩)
  else l

/-- `random.shuffle`'s loop `for i in reversed(range(1, len(x)))`, the
random draw `_randbelow(i+1)` supplied by the entropy stream `js` (taken
modulo `i+1` so every draw is in range, as the library guarantees). -/
def fyAux (l : List α) : Nat → List Nat → List α
  | 0, _ => l
  | _ + 1, [] => l
  | i + 1, j :: js => fyAux (listSwap l (i + 1) (j % (i + 2))) i js

/-- Model of `random.shuffle(deck)`, parameterised by the entropy
stream. -/
def pyShuffle (js : List Nat) (l : List α) : List α :=
  fyAux l (l.length - 1) js

/-- The deck handed to a session: `deck = all_cards.copy()`, then
`random.shuffle(deck)` iff the Shuffle checkbox is set. -/
def buildDeck (store : Store) (cls : String) (shuffle : Bool) (js : List Nat) :
    List TaggedCard :=
  let all_cards := allCardsOf store cls
  if shuffle then pyShuffle js all_cards else all_cards

/-! ### Study-session state machine

The per-session keys of `st.session_state.study_state`. -/

/-- `{"deck": deck, "index": idx, "show_answer": b, "correct": c,
"incorrect": w}`. -/
structure Session where
  deck : List TaggedCard
  index : Nat
  show_answer : Bool
  correct : Nat
  incorrect : Nat
  deriving DecidableEq, Repr

/-- The three in-session buttons: 👁️ Show Answer, ✅/❌ grading, ⏭️ Skip. -/
inductive Action
  | reveal
  | grade (got_it : Bool)
  | skip
  deriving DecidableEq, Repr

/-- "▶️ Start / Restart Session":
`ss.update({"deck": deck, "index": 0, "show_answer": False, "correct": 0,
"incorrect": 0})`. -/
def startSession (deck : List TaggedCard) : Session :=
  ⟨deck, 0, false, 0, 0⟩

/-- The completion test `idx >= total` guarding the summary screen. -/
def isComplete (s : Session) : Bool :=
  s.deck.length ≤ s.index

/-- The Show Answer button is rendered only on the card screen
(`idx < total`) and only when `not ss.get("show_answer")`. -/
def revealAvailable (s : Session) : Bool :=
  s.index < s.deck.length && !s.show_answer

/-- The ✅ Got it! / ❌ Missed it buttons are rendered only on the card
screen and only in the `else` branch, i.e. when the answer is shown. -/
def gradeAvailable (s : Session) : Bool :=
  s.index < s.deck.length && s.show_answer

/-- The ⏭️ Skip button is rendered in the same `else` branch as the
grading buttons: only when the answer is shown. -/
def skipAvailable (s : Session) : Bool :=
  s.index < s.deck.length && s.show_answer

/-- One user action: the corresponding button handler when that button is
on screen, otherwise no state change (the button does not exist, so the
action is a no-op). -/
def step (s : Session) : Action → Session
  | .reveal =>
      if revealAvailable s then { s with show_answer := true } else s
  | .grade got_it =>
      if gradeAvailable s then
        if got_it then
          { s with correct := s.correct + 1, index := s.index + 1,
                   show_answer := false }
        else
          { s with incorrect := s.incorrect + 1, index := s.index + 1,
                   show_answer := false }
      else s
  | .skip =>
      if skipAvailable s then
        { s with index := s.index + 1, show_answer := false }
      else s

/-- Running a whole session: start on a deck, then any button sequence. -/
def runSession (deck : List TaggedCard) (acts : List Action) : Session :=
  acts.foldl step (startSession deck)

/-! ### Completion summary

`pct = round(c / (c+w) * 100)` is computed in binary64 floating point:
CPython's `int / int` true division yields the correctly rounded
(round-to-nearest, ties-to-even) double of the exact quotient, the `* 100`
is one more correctly rounded binary64 multiplication, and `round()` on
the resulting float is round-half-to-even on the double's exact value.
A finite double is `m * 2^e` with `m < 2^53` and `e ≥ -1074`, so the whole
pipeline is computed exactly below on mantissa/exponent pairs of naturals
(the values here stay in `[0, 128]`, far from overflow). -/

/-- `⌊log2 n⌋` (0 for `n ≤ 1`), fuel-structured so it evaluates by kernel
reduction. -/
def lgAux : Nat → Nat → Nat
  | 0, _ => 0
  | fuel + 1, n => if n ≤ 1 then 0 else lgAux fuel (n / 2) + 1

/-- `⌊log2 n⌋` (0 for `n ≤ 1`); `n` halvings of fuel always suffice. -/
def lg (n : Nat) : Nat := lgAux n n

/-- The integer nearest to `a / b`, ties to even (`b > 0`). -/
def divRNE (a b : Nat) : Nat :=
  let q := a / b
  let r := a % b
  if 2 * r < b then q
  else if b < 2 * r then q + 1
  else if q % 2 = 0 then q else q + 1

/-- Decides `2^t ≤ a / b` for `b > 0`. -/
def pow2le (a b : Nat) (t : ℤ) : Bool :=
  if 0 ≤ t then b * 2 ^ t.toNat ≤ a else b ≤ a * 2 ^ (-t).toNat

/-- `⌊log2 (a / b)⌋` for `a, b ≥ 1`: the floor lies in
`{lg a - lg b - 1, lg a - lg b}`, fixed by direct comparison. -/
def flog2Ratio (a b : Nat) : ℤ :=
  let e0 : ℤ := (lg a : ℤ) - (lg b : ℤ)
  if pow2le a b (e0 + 1) then e0 + 1
  else if pow2le a b e0 then e0
  else e0 - 1

/-- The correctly rounded binary64 value of `a / b` (`a ≤ b·2^971`, so no
overflow), as a mantissa/exponent pair `(m, g)` of value `m * 2^g`: the
unit in the last place is `2^g` with `g = max(⌊log2(a/b)⌋ - 52, -1074)`
(the second bound is the subnormal range), and the mantissa is the
nearest-even integer multiple of it. This is what CPython's
`int.__truediv__` produces. -/
def fdivB64 (a b : Nat) : Nat × ℤ :=
  if a = 0 then (0, 0)
  else
    let e := flog2Ratio a b
    let g : ℤ := max (e - 52) (-1074)
    let m := if 0 ≤ g then divRNE a (b * 2 ^ g.toNat)
             else divRNE (a * 2 ^ (-g).toNat) b
    (m, g)

/-- Binary64 multiplication of the double `(m, e)` by the exact constant
`100.0`: the exact product `m * 100` is kept when it still fits in 53
bits, otherwise rounded nearest-even back to 53 bits with the exponent
raised accordingly. -/
def fmul100B64 (x : Nat × ℤ) : Nat × ℤ :=
  let p := x.1 * 100
  if p < 2 ^ 53 then (p, x.2)
  else
    let s := lg p - 52
    (divRNE p (2 ^ s), x.2 + s)

/-- Python `round()` on the nonnegative double `m * 2^e`: the nearest
integer to its exact value, ties to even. -/
def roundB64ToInt (x : Nat × ℤ) : ℤ :=
  if 0 ≤ x.2 then ((x.1 * 2 ^ x.2.toNat : Nat) : ℤ)
  else ((divRNE x.1 (2 ^ (-x.2).toNat) : Nat) : ℤ)

/-- `pct = round(c / (c+w) * 100) if (c + w) > 0 else 0`, with the
division, the multiplication and `round()` in binary64 exactly as the
program performs them. -/
def summaryPct (c w : Nat) : ℤ :=
  if 0 < c + w then roundB64ToInt (fmul100B64 (fdivB64 c (c + w))) else 0

/-- The three feedback message slots of the summary screen. -/
inductive Tier
  | top
  | middle
  | bottom
  deriving DecidableEq, Repr

/-- `if pct >= 80: ... elif pct >= 60: ... else: ...`. -/
def summaryTier (pct : ℤ) : Tier :=
  if pct ≥ 80 then .top else if pct ≥ 60 then .middle else .bottom

/-! ### Persistence (`save_data` / `load_data`)

`save_data` is `json.dump(data, f, indent=2)` and `load_data` is
`json.load(f)`: the store is written as the JSON document of §6 and read
back verbatim. The document is modelled as a JSON value (objects keep key
order, exactly as `json` round-trips them). -/

/-- The persisted JSON document (only the shapes the data file uses). -/
inductive Json
  | null
  | jstr (s : String)
  | jarr (items : List Json)
  | jobj (fields : List (String × Json))

/-- One card object:
`{"question": str, "answer_text": str, "answer_image": str|null}`. -/
def cardToJson (c : Card) : Json :=
  .jobj [("question", .jstr c.question),
         ("answer_text", .jstr c.answer_text),
         ("answer_image", match c.answer_image with
                          | none => .null
                          | some p => .jstr p)]

/-- A topic's value: the ordered array of card objects. -/
def topicToJson (cards : List Card) : Json :=
  .jarr (cards.map cardToJson)

/-- A class's value: topic name → card array. -/
def classToJson (topics : Topics) : Json :=
  .jobj (topics.map fun tc => (tc.1, topicToJson tc.2))

/-- `save_data`: the whole document, class name → class object. -/
def storeToJson (store : Store) : Json :=
  .jobj (store.map fun ct => (ct.1, classToJson ct.2))

/-- Reading one card object back. -/
def cardOfJson : Json → Option Card
  | .jobj [("question", .jstr q), ("answer_text", .jstr a), ("answer_image", i)] =>
      match i with
      | .null => some ⟨q, a, none⟩
      | .jstr p => some ⟨q, a, some p⟩
      | _ => none
  | _ => none

/-- Reading a topic's card array back. -/
def topicOfJson : Json → Option (List Card)
  | .jarr items => items.mapM cardOfJson
  | _ => none

/-- Reading a class object back. -/
def classOfJson : Json → Option Topics
  | .jobj fields =>
      fields.mapM fun f => (topicOfJson f.2).map fun cards => (f.1, cards)
  | _ => none

/-- `load_data`: the whole hierarchy back from the document. -/
def storeOfJson : Json → Option Store
  | .jobj fields =>
      fields.mapM fun f => (classOfJson f.2).map fun topics => (f.1, topics)
  | _ => none

/-! ### `save_b64` (pasted images)

`header, b64data = data_url.split(",", 1)` followed by extension sniffing
over the header and `base64.b64decode(b64data)` written to
`IMAGES_DIR/paste_<hex>.<ext>`. -/

/-- `s.split(",", 1)`: `none` models the single-element result whose
unpacking into two names raises `ValueError`. -/
def splitOnce (sep : Char) : List Char → Option (List Char × List Char)
  | [] => none
  | c :: rest =>
      if c = sep then some ([], rest)
      else (splitOnce sep rest).map fun p => (c :: p.1, p.2)

/-- Whether `needle` occurs at the head of `hay`. -/
def leadMatch : List Char → List Char → Bool
  | [], _ => true
  | _ :: _, [] => false
  | a :: as, b :: bs => a == b && leadMatch as bs

/-- Python's `x in header` substring test. -/
def hasSub (needle : List Char) : List Char → Bool
  | [] => leadMatch needle []
  | l@(_ :: rest) => leadMatch needle l || hasSub needle rest

/-- `ext = "png"`, then the first of `("jpeg", "jpg", "gif", "webp")`
found in the header wins, `jpeg` mapped to `jpg`. -/
def extFor (header : List Char) : String :=
  if hasSub "jpeg".data header then "jpg"
  else if hasSub "jpg".data header then "jpg"
  else if hasSub "gif".data header then "gif"
  else if hasSub "webp".data header then "webp"
  else "png"

/-- The base64 alphabet value of a character, `none` for non-alphabet
characters (which lenient `binascii.a2b_base64` skips). -/
def b64Val (c : Char) : Option Nat :=
  if 'A' ≤ c ∧ c ≤ 'Z' then some (c.toNat - 65)
  else if 'a' ≤ c ∧ c ≤ 'z' then some (c.toNat - 97 + 26)
  else if '0' ≤ c ∧ c ≤ '9' then some (c.toNat - 48 + 52)
  else if c = '+' then some 62
  else if c = '/' then some 63
  else none

/-- CPython's lenient `binascii.a2b_base64` loop (strict_mode off):
`qp` is the position within the current quad, `left` the pending bits,
`pads` the consecutive `=` seen at quad position ≥ 2, `acc` the bytes
emitted so far (reversed). An `=` at quad position ≥ 2 that completes the
quad (`qp + pads + 1 ≥ 4`) ends decoding successfully with the bytes
emitted so far; an `=` that does not is counted (or, at quad position
0/1, skipped outright); a non-alphabet character is skipped; a data
character resets the pad count and emits a byte at quad positions 1, 2
and 3. Input exhausted mid-quad is `binascii.Error` ("Incorrect padding"
/ "number of data characters cannot be 1 more than a multiple of 4"). -/
def a2bAux : List Char → Nat → Nat → Nat → List Nat → Except Unit (List Nat)
  | [], qp, _, _, acc => if qp = 0 then .ok acc.reverse else .error ()
  | c :: rest, qp, left, pads, acc =>
      if c = '=' then
        if 2 ≤ qp ∧ 4 ≤ qp + (pads + 1) then .ok acc.reverse
        else if 2 ≤ qp then a2bAux rest qp left (pads + 1) acc
        else a2bAux rest qp left pads acc
      else
        match b64Val c with
        | none => a2bAux rest qp left pads acc
        | some v =>
            match qp with
            | 0 => a2bAux rest 1 v 0 acc
            | 1 => a2bAux rest 2 (v % 16) 0 ((left * 4 + v / 16) :: acc)
            | 2 => a2bAux rest 3 (v % 4) 0 ((left * 16 + v / 4) :: acc)
            | _ => a2bAux rest 0 0 0 ((left * 64 + v) :: acc)

/-- Model of `base64.b64decode` on the payload text: non-ASCII input
raises (the `str` is ASCII-encoded first); otherwise the lenient
`a2b_base64` machine runs from an empty quad. -/
def pyB64Decode (payload : List Char) : Except Unit (List Nat) :=
  if payload.all (fun c => c.toNat < 128) then a2bAux payload 0 0 0 []
  else .error ()

/-- `IMAGES_DIR`. -/
def IMAGES_DIR : String := "flashcard_images"

/-- `save_b64(data_url)`, the fresh `uuid4().hex[:10]` passed in as
`hex10`. Returns the path written and the decoded bytes written to it;
`error` models the raised exception (no-comma unpacking failure, or a
payload `b64decode` rejects). -/
def save_b64 (hex10 : String) (data_url : String) : Except Unit (String × List Nat) :=
  match splitOnce ',' data_url.data with
  | none => .error ()
  | some (header, b64data) =>
      match pyB64Decode b64data with
      | .error _ => .error ()
      | .ok bytes =>
          .ok (IMAGES_DIR ++ "/paste_" ++ hex10 ++ "." ++ extFor header, bytes)

/-! ### Helper lemmas -/

theorem mem_dropWhile_of_mem_all {p : α → Bool} {l : List α}
    (h : ∀ x ∈ l, p x = true) : ∀ x ∈ l.dropWhile p, p x = true := by
  intro x hx
  exact h x ((List.dropWhile_sublist p).mem hx)

theorem all_of_dropWhile_all {p : α → Bool} {l : List α}
    (h : ∀ x ∈ l.dropWhile p, p x = true) : ∀ x ∈ l, p x = true := by
  intro x hx
  rw [← List.takeWhile_append_dropWhile (p := p) (l := l)] at hx
  rcases List.mem_append.1 hx with h1 | h1
  · exact List.mem_takeWhile_imp h1
  · exact h x h1

theorem stripList_eq_nil_iff {l : List Char} :
    stripList l = [] ↔ ∀ c ∈ l, pyIsSpace c = true := by
  unfold stripList
  rw [List.reverse_eq_nil_iff, List.dropWhile_eq_nil_iff]
  constructor
  · intro h
    apply all_of_dropWhile_all (p := pyIsSpace)
    intro x hx
    exact h x (by simpa using hx)
  · intro h x hx
    exact mem_dropWhile_of_mem_all h x (by simpa using hx)

theorem pyStrip_eq_empty_iff {s : String} :
    pyStrip s = "" ↔ s.data.all pyIsSpace = true := by
  rw [pyStrip, String.ext_iff]
  exact stripList_eq_nil_iff.trans List.all_eq_true.symm

theorem count_keys_eq_zero {α} {k : String} :
    ∀ {l : List (String × α)}, lookupA k l = none → (l.map Prod.fst).count k = 0
  | [], _ => rfl
  | (k', v) :: rest, h => by
      rw [lookupA] at h
      by_cases hk : k' = k
      · simp [hk] at h
      · rw [if_neg hk] at h
        simp [List.count_cons, count_keys_eq_zero h, Ne.symm hk]

/-! ### Claims -/

/-- C3: for every completed session the summary percentage is
`round(correct/(correct+incorrect)*100)` — computed, as the program does,
in binary64 floating point — when at least one card was graded and `0`
otherwise, and the feedback tiers are selected exactly at the `>= 80` /
`>= 60` thresholds. -/
theorem claim_C3_summary (c w : Nat) (pct : ℤ) :
    summaryPct c w =
      (if 0 < c + w then roundB64ToInt (fmul100B64 (fdivB64 c (c + w)))
       else 0) ∧
    (c + w = 0 → summaryPct c w = 0) ∧
    (summaryTier pct = .top ↔ 80 ≤ pct) ∧
    (summaryTier pct = .middle ↔ 60 ≤ pct ∧ pct < 80) ∧
    (summaryTier pct = .bottom ↔ pct < 60) := by
  refine ⟨rfl, ?_, ?_, ?_, ?_⟩
  · intro h
    simp [summaryPct, h]
  · unfold summaryTier
    split_ifs with h1 h2
    · simp [h1]
    · simp only [reduceCtorEq, false_iff]
      omega
    · simp only [reduceCtorEq, false_iff]
      omega
  · unfold summaryTier
    split_ifs with h1 h2
    · simp only [reduceCtorEq, false_iff]
      omega
    · simp only [true_iff]
      omega
    · simp only [reduceCtorEq, false_iff]
      omega
  · unfold summaryTier
    split_ifs with h1 h2
    · simp only [reduceCtorEq, false_iff]
      omega
    · simp only [reduceCtorEq, false_iff]
      omega
    · simp only [true_iff]
      omega

/-- C3 witness: 23 correct out of 40 graded — the float product is
`57.49999999999999`, so the program (and the model) reports 57, not the
58 that exact rational rounding of `57.5` would give; 57 falls in the
bottom tier. -/
theorem claim_C3_summary_witness :
    summaryPct 23 17 = 57 ∧ summaryTier 57 = .bottom := by
  have h := claim_C3_summary 23 17 57
  refine ⟨?_, (h.2.2.2.2).mpr (by norm_num)⟩
  rw [h.1]
  decide

/-- C6: `createClass` rejects blank (whitespace-only) names, rejects an
already-present trimmed name as a duplicate, and otherwise appends the
trimmed name with an empty topic map; after a success, `listClasses`
contains the new name exactly once. -/
theorem claim_C6_createClass (store : Store) (name : String) :
    createClass store name =
      (if pyStrip name = "" then .error .InvalidInput
       else if (lookupA (pyStrip name) store).isSome then .error .DuplicateKey
       else .ok (store ++ [(pyStrip name, [])])) ∧
    (pyStrip name = "" ↔ name.data.all pyIsSpace = true) ∧
    (∀ store', createClass store name = .ok store' →
        store' = store ++ [(pyStrip name, [])] ∧
        (listClasses store').count (pyStrip name) = 1) := by
  refine ⟨rfl, pyStrip_eq_empty_iff, ?_⟩
  intro store' h
  simp only [createClass] at h
  split_ifs at h with h1 h2
  cases h
  have h0 : (store.map Prod.fst).count (pyStrip name) = 0 :=
    count_keys_eq_zero (Option.not_isSome_iff_eq_none.mp h2)
  exact ⟨rfl, by simp [listClasses, h0]⟩

/-- C6 witness: creating "Sci" in a store holding only "Math" succeeds
and lists "Sci" exactly once. -/
theorem claim_C6_createClass_witness :
    ([("Math", []), ("Sci", [])] : Store) =
      [("Math", [])] ++ [(pyStrip "Sci", [])] ∧
    (listClasses [("Math", []), ("Sci", [])]).count (pyStrip "Sci") = 1 :=
  (claim_C6_createClass [("Math", [])] "Sci").2.2
    [("Math", []), ("Sci", [])] rfl

/-- C2 counterexample: in the Presenting state (answer not yet shown, card
screen still active) the Skip button is not rendered, so the skip action
is unavailable and changes nothing — the claim's "valid in Presenting" is
false on the code. -/
theorem claim_C2_skip_cex :
    (startSession [⟨⟨"q", "a", none⟩, "t"⟩]).show_answer = false ∧
    (startSession [⟨⟨"q", "a", none⟩, "t"⟩]).index <
      (startSession [⟨⟨"q", "a", none⟩, "t"⟩]).deck.length ∧
    skipAvailable (startSession [⟨⟨"q", "a", none⟩, "t"⟩]) = false ∧
    step (startSession [⟨⟨"q", "a", none⟩, "t"⟩]) .skip =
      startSession [⟨⟨"q", "a", none⟩, "t"⟩] :=
  ⟨rfl, Nat.zero_lt_one, rfl, rfl⟩

/-- C2 (amended): the skip transition is available exactly in the
Revealed state (answer shown, session not complete); there it advances
the index by 1, resets the answer flag, leaves both counters unchanged,
and completes the session iff the new index equals the deck length. -/
theorem claim_C2_skip (s : Session) (hshow : s.show_answer = true)
    (hidx : s.index < s.deck.length) :
    skipAvailable s = true ∧
    step s .skip = { s with index := s.index + 1, show_answer := false } ∧
    (step s .skip).correct = s.correct ∧
    (step s .skip).incorrect = s.incorrect ∧
    (isComplete (step s .skip) = true ↔ s.index + 1 = s.deck.length) := by
  have hav : skipAvailable s = true := by
    simp [skipAvailable, hshow, hidx]
  refine ⟨hav, ?_, ?_, ?_, ?_⟩
  · simp only [step, hav, if_true]
  · simp only [step, hav, if_true]
  · simp only [step, hav, if_true]
  · simp only [step, hav, if_true, isComplete, decide_eq_true_eq]
    omega

/-- C2 witness: a one-card session with the answer shown — skip is
available, advances to index 1 and completes. -/
theorem claim_C2_skip_witness :
    skipAvailable ⟨[⟨⟨"q", "a", none⟩, "t"⟩], 0, true, 0, 0⟩ = true ∧
    step ⟨[⟨⟨"q", "a", none⟩, "t"⟩], 0, true, 0, 0⟩ .skip =
      { (⟨[⟨⟨"q", "a", none⟩, "t"⟩], 0, true, 0, 0⟩ : Session) with
          index := 0 + 1, show_answer := false } ∧
    (step ⟨[⟨⟨"q", "a", none⟩, "t"⟩], 0, true, 0, 0⟩ .skip).correct =
      (⟨[⟨⟨"q", "a", none⟩, "t"⟩], 0, true, 0, 0⟩ : Session).correct ∧
    (step ⟨[⟨⟨"q", "a", none⟩, "t"⟩], 0, true, 0, 0⟩ .skip).incorrect =
      (⟨[⟨⟨"q", "a", none⟩, "t"⟩], 0, true, 0, 0⟩ : Session).incorrect ∧
    (isComplete (step ⟨[⟨⟨"q", "a", none⟩, "t"⟩], 0, true, 0, 0⟩ .skip) = true ↔
      0 + 1 = ([⟨⟨"q", "a", none⟩, "t"⟩] : List TaggedCard).length) :=
  claim_C2_skip ⟨[⟨⟨"q", "a", none⟩, "t"⟩], 0, true, 0, 0⟩ rfl Nat.zero_lt_one

/-- C5 counterexample: the Update form's handler assigns
`question = eq.strip()` without a blank check, so updating a card with a
whitespace-only question stores an empty question — the claim's "no other
operation can leave a stored card with an empty question" is false on the
code. -/
theorem claim_C5_question_cex :
    updateCardStore [("c", [("t", [⟨"q0", "a0", none⟩])])] "c" "t" 0 " " "x" none =
      [("c", [("t", [⟨"", "x", none⟩])])] ∧
    (⟨"", "x", none⟩ : Card).question = "" :=
  ⟨rfl, rfl⟩

/-- C5 (amended): `appendCard` (Save Card) rejects a blank question —
it fails exactly when the stripped question is empty, and a successful
append preserves "every stored question is non-empty"; the Update handler,
however, performs no such validation (see the counterexample). -/
theorem claim_C5_question (cards : List Card) (q a : String) (img : Option String) :
    (appendCard cards q a img = none ↔ pyStrip q = "") ∧
    (∀ cards', appendCard cards q a img = some cards' →
      (∀ c ∈ cards, c.question ≠ "") → ∀ c ∈ cards', c.question ≠ "") := by
  constructor
  · unfold appendCard
    split_ifs with h <;> simp [h]
  · intro cards' h hall c hc
    unfold appendCard at h
    split_ifs at h with hq
    cases h
    rcases List.mem_append.1 hc with h1 | h1
    · exact hall c h1
    · rcases List.mem_singleton.1 h1 with rfl
      exact hq

/-- C5 witness: appending a card with question "Q" to an empty topic
keeps every stored question non-empty. -/
theorem claim_C5_question_witness :
    (appendCard [] "Q" "" none = none ↔ pyStrip "Q" = "") ∧
    (∀ c ∈ ([⟨"Q", "", none⟩] : List Card), c.question ≠ "") :=
  ⟨(claim_C5_question [] "Q" "" none).1,
   (claim_C5_question [] "Q" "" none).2 [⟨"Q", "", none⟩] rfl
     (by intro c hc; cases hc)⟩

theorem step_deck_eq (s : Session) (a : Action) : (step s a).deck = s.deck := by
  cases a <;> simp only [step] <;> split_ifs <;> rfl

/-- The grading invariant, preserved by every button press. -/
def SessionInv (s : Session) : Prop :=
  s.correct + s.incorrect ≤ s.index ∧ s.index ≤ s.deck.length

theorem sessionInv_step {s : Session} (h : SessionInv s) (a : Action) :
    SessionInv (step s a) := by
  obtain ⟨h1, h2⟩ := h
  cases a with
  | reveal =>
      simp only [step]
      split_ifs <;> exact ⟨h1, h2⟩
  | grade got_it =>
      simp only [step]
      by_cases hav : gradeAvailable s = true
      · have hlt : s.index < s.deck.length := by
          simp only [gradeAvailable, Bool.and_eq_true, decide_eq_true_eq] at hav
          exact hav.1
        rw [if_pos hav]
        cases got_it <;> constructor <;> dsimp only <;> simp <;> omega
      · rw [if_neg hav]
        exact ⟨h1, h2⟩
  | skip =>
      simp only [step]
      by_cases hav : skipAvailable s = true
      · have hlt : s.index < s.deck.length := by
          simp only [skipAvailable, Bool.and_eq_true, decide_eq_true_eq] at hav
          exact hav.1
        rw [if_pos hav]
        constructor <;> dsimp only <;> omega
      · rw [if_neg hav]
        exact ⟨h1, h2⟩

theorem sessionInv_foldl {s : Session} (h : SessionInv s) :
    ∀ acts : List Action, SessionInv (acts.foldl step s)
  | [] => h
  | a :: acts => sessionInv_foldl (sessionInv_step h a) acts

theorem foldl_step_deck (s : Session) :
    ∀ acts : List Action, (acts.foldl step s).deck = s.deck
  | [] => rfl
  | a :: acts => (foldl_step_deck (step s a) acts).trans (step_deck_eq s a)

/-- C1: a session started on a deck of `n` cards satisfies
`correct + incorrect ≤ index ≤ n` after every sequence of
reveal/grade/skip presses; the start state zeroes the index and both
counters, grading increments exactly one counter and the index, skipping
increments only the index, and no sequence pushes the index past `n`. -/
theorem claim_C1_session_invariant (deck : List TaggedCard) (acts : List Action)
    (t : Session) (hshow : t.show_answer = true)
    (hidx : t.index < t.deck.length) :
    ((startSession deck).index = 0 ∧ (startSession deck).correct = 0 ∧
      (startSession deck).incorrect = 0) ∧
    ((runSession deck acts).correct + (runSession deck acts).incorrect ≤
        (runSession deck acts).index ∧
      (runSession deck acts).index ≤ deck.length) ∧
    ((step t (.grade true)).correct = t.correct + 1 ∧
      (step t (.grade true)).incorrect = t.incorrect ∧
      (step t (.grade true)).index = t.index + 1) ∧
    ((step t (.grade false)).incorrect = t.incorrect + 1 ∧
      (step t (.grade false)).correct = t.correct ∧
      (step t (.grade false)).index = t.index + 1) ∧
    ((step t .skip).index = t.index + 1 ∧
      (step t .skip).correct = t.correct ∧
      (step t .skip).incorrect = t.incorrect) := by
  have hgrade : gradeAvailable t = true := by
    simp [gradeAvailable, hshow, hidx]
  have hskip : skipAvailable t = true := by
    simp [skipAvailable, hshow, hidx]
  have hstart : SessionInv (startSession deck) := ⟨Nat.le_refl 0, Nat.zero_le _⟩
  have hinv : SessionInv (runSession deck acts) := sessionInv_foldl hstart acts
  have hdeck : (runSession deck acts).deck = deck :=
    foldl_step_deck (startSession deck) acts
  have h2' := hinv.2
  rw [hdeck] at h2'
  refine ⟨⟨rfl, rfl, rfl⟩, ⟨hinv.1, h2'⟩, ?_, ?_, ?_⟩ <;>
    simp [step, hgrade, hskip]

/-- C1 witness: a one-card deck, pressing reveal then grading correct;
the invariant holds and each transition changes exactly the claimed
fields of the revealed state. -/
theorem claim_C1_session_invariant_witness :
    ((startSession [⟨⟨"q", "a", none⟩, "t"⟩]).index = 0 ∧
      (startSession [⟨⟨"q", "a", none⟩, "t"⟩]).correct = 0 ∧
      (startSession [⟨⟨"q", "a", none⟩, "t"⟩]).incorrect = 0) ∧
    ((runSession [⟨⟨"q", "a", none⟩, "t"⟩] [.reveal, .grade true]).correct +
        (runSession [⟨⟨"q", "a", none⟩, "t"⟩] [.reveal, .grade true]).incorrect ≤
        (runSession [⟨⟨"q", "a", none⟩, "t"⟩] [.reveal, .grade true]).index ∧
      (runSession [⟨⟨"q", "a", none⟩, "t"⟩] [.reveal, .grade true]).index ≤
        ([⟨⟨"q", "a", none⟩, "t"⟩] : List TaggedCard).length) ∧
    ((step ⟨[⟨⟨"q", "a", none⟩, "t"⟩], 0, true, 0, 0⟩ (.grade true)).correct =
        (⟨[⟨⟨"q", "a", none⟩, "t"⟩], 0, true, 0, 0⟩ : Session).correct + 1 ∧
      (step ⟨[⟨⟨"q", "a", none⟩, "t"⟩], 0, true, 0, 0⟩ (.grade true)).incorrect =
        (⟨[⟨⟨"q", "a", none⟩, "t"⟩], 0, true, 0, 0⟩ : Session).incorrect ∧
      (step ⟨[⟨⟨"q", "a", none⟩, "t"⟩], 0, true, 0, 0⟩ (.grade true)).index =
        (⟨[⟨⟨"q", "a", none⟩, "t"⟩], 0, true, 0, 0⟩ : Session).index + 1) ∧
    ((step ⟨[⟨⟨"q", "a", none⟩, "t"⟩], 0, true, 0, 0⟩ (.grade false)).incorrect =
        (⟨[⟨⟨"q", "a", none⟩, "t"⟩], 0, true, 0, 0⟩ : Session).incorrect + 1 ∧
      (step ⟨[⟨⟨"q", "a", none⟩, "t"⟩], 0, true, 0, 0⟩ (.grade false)).correct =
        (⟨[⟨⟨"q", "a", none⟩, "t"⟩], 0, true, 0, 0⟩ : Session).correct ∧
      (step ⟨[⟨⟨"q", "a", none⟩, "t"⟩], 0, true, 0, 0⟩ (.grade false)).index =
        (⟨[⟨⟨"q", "a", none⟩, "t"⟩], 0, true, 0, 0⟩ : Session).index + 1) ∧
    ((step ⟨[⟨⟨"q", "a", none⟩, "t"⟩], 0, true, 0, 0⟩ .skip).index =
        (⟨[⟨⟨"q", "a", none⟩, "t"⟩], 0, true, 0, 0⟩ : Session).index + 1 ∧
      (step ⟨[⟨⟨"q", "a", none⟩, "t"⟩], 0, true, 0, 0⟩ .skip).correct =
        (⟨[⟨⟨"q", "a", none⟩, "t"⟩], 0, true, 0, 0⟩ : Session).correct ∧
      (step ⟨[⟨⟨"q", "a", none⟩, "t"⟩], 0, true, 0, 0⟩ .skip).incorrect =
        (⟨[⟨⟨"q", "a", none⟩, "t"⟩], 0, true, 0, 0⟩ : Session).incorrect) :=
  claim_C1_session_invariant [⟨⟨"q", "a", none⟩, "t"⟩] [.reveal, .grade true]
    ⟨[⟨⟨"q", "a", none⟩, "t"⟩], 0, true, 0, 0⟩ rfl Nat.zero_lt_one

theorem lookupA_updAssoc_ne {α} {k k' : String} (f : α → α) (h : k' ≠ k) :
    ∀ l : List (String × α), lookupA k' (updAssoc k f l) = lookupA k' l
  | [] => rfl
  | (k₀, v) :: rest => by
      by_cases hk : k₀ = k
      · simp only [updAssoc, if_pos hk, lookupA, if_neg (hk ▸ Ne.symm h)]
      · simp only [updAssoc, if_neg hk, lookupA]
        split_ifs
        · rfl
        · exact lookupA_updAssoc_ne f h rest

theorem lookupA_updAssoc_self {α} {k : String} (f : α → α) :
    ∀ l : List (String × α), lookupA k (updAssoc k f l) = (lookupA k l).map f
  | [] => rfl
  | (k₀, v) :: rest => by
      by_cases hk : k₀ = k
      · simp only [updAssoc, if_pos hk, lookupA, if_pos rfl]
        rfl
      · simp only [updAssoc, if_neg hk, lookupA, if_neg hk]
        exact lookupA_updAssoc_self f rest

/-- C8 counterexample: the Update handler stores `eq.strip()`, so an
update whose supplied question is `" x "` stores `"x"`, not the supplied
value — "replaces the card's question ... with the supplied values" is
false on the code. -/
theorem claim_C8_updateCard_cex :
    updateCard [⟨"q0", "a0", none⟩] 0 " x " "y" none = [⟨"x", "y", none⟩] ∧
    ("x" : String) ≠ " x " :=
  ⟨rfl, by decide⟩

/-- C8 (amended): on a valid index, updateCard replaces the card's
question and answer text with the *stripped* supplied values and replaces
the answer image only when a new one is supplied; every other card of the
topic, every other topic of the class, and every other class of the store
are unchanged. -/
theorem claim_C8_updateCard (store : Store) (cls top : String) (i : Nat)
    (q a : String) (ni : Option String) :
    (∀ cls', cls' ≠ cls →
       lookupA cls' (updateCardStore store cls top i q a ni) = lookupA cls' store) ∧
    (∀ topics, lookupA cls store = some topics →
       lookupA cls (updateCardStore store cls top i q a ni) =
         some (updAssoc top (fun cs => updateCard cs i q a ni) topics) ∧
       ∀ top', top' ≠ top →
         lookupA top' (updAssoc top (fun cs => updateCard cs i q a ni) topics) =
           lookupA top' topics) ∧
    (∀ (cs : List Card) (c : Card), cs.get? i = some c →
       (updateCard cs i q a ni).get? i =
         some ⟨pyStrip q, pyStrip a,
               match ni with | some p => some p | none => c.answer_image⟩ ∧
       ∀ j, j ≠ i → (updateCard cs i q a ni).get? j = cs.get? j) := by
  refine ⟨?_, ?_, ?_⟩
  · intro cls' h
    exact lookupA_updAssoc_ne _ h store
  · intro topics h
    constructor
    · rw [updateCardStore, lookupA_updAssoc_self, h]
      rfl
    · intro top' h'
      exact lookupA_updAssoc_ne _ h' topics
  · intro cs c h
    have hlt : i < cs.length := by
      rw [List.get?_eq_getElem?] at h
      exact (List.getElem?_eq_some_iff.1 h).1
    unfold updateCard
    rw [h]
    constructor
    · rw [List.get?_eq_getElem?, List.getElem?_set_self (by simpa using hlt)]
    · intro j hj
      rw [List.get?_eq_getElem?, List.get?_eq_getElem?,
        List.getElem?_set_ne (Ne.symm hj)]

/-- C8 witness: updating card 0 of topic "t" in class "c" leaves class
"d", topic "u" and card 1 untouched and rewrites exactly the targeted
card's fields. -/
theorem claim_C8_updateCard_witness :
    lookupA "d" (updateCardStore
        [("c", [("t", [⟨"q0", "a0", some "im"⟩]), ("u", [])]), ("d", [])]
        "c" "t" 0 "nq" "na" none) =
      lookupA "d" [("c", [("t", [⟨"q0", "a0", some "im"⟩]), ("u", [])]), ("d", [])] ∧
    lookupA "c" (updateCardStore
        [("c", [("t", [⟨"q0", "a0", some "im"⟩]), ("u", [])]), ("d", [])]
        "c" "t" 0 "nq" "na" none) =
      some (updAssoc "t" (fun cs => updateCard cs 0 "nq" "na" none)
        [("t", [⟨"q0", "a0", some "im"⟩]), ("u", [])]) ∧
    lookupA "u" (updAssoc "t" (fun cs => updateCard cs 0 "nq" "na" none)
        [("t", [⟨"q0", "a0", some "im"⟩]), ("u", [])]) =
      lookupA "u" [("t", [⟨"q0", "a0", some "im"⟩]), ("u", [])] ∧
    (updateCard [⟨"q0", "a0", some "im"⟩] 0 "nq" "na" none).get? 0 =
      some ⟨pyStrip "nq", pyStrip "na", (⟨"q0", "a0", some "im"⟩ : Card).answer_image⟩ ∧
    (updateCard [⟨"q0", "a0", some "im"⟩] 0 "nq" "na" none).get? 1 =
      ([⟨"q0", "a0", some "im"⟩] : List Card).get? 1 := by
  have h := claim_C8_updateCard
    [("c", [("t", [⟨"q0", "a0", some "im"⟩]), ("u", [])]), ("d", [])]
    "c" "t" 0 "nq" "na" none
  exact ⟨h.1 "d" (by decide),
         (h.2.1 [("t", [⟨"q0", "a0", some "im"⟩]), ("u", [])] rfl).1,
         (h.2.1 [("t", [⟨"q0", "a0", some "im"⟩]), ("u", [])] rfl).2 "u" (by decide),
         (h.2.2 [⟨"q0", "a0", some "im"⟩] ⟨"q0", "a0", some "im"⟩ rfl).1,
         (h.2.2 [⟨"q0", "a0", some "im"⟩] ⟨"q0", "a0", some "im"⟩ rfl).2 1
           (by decide)⟩

theorem head?_dropWhile_false {p : α → Bool} {c : α} :
    ∀ {l : List α}, (l.dropWhile p).head? = some c → p c = false
  | [], h => by cases h
  | x :: xs, h => by
      rw [List.dropWhile_cons] at h
      split_ifs at h with hx
      · exact head?_dropWhile_false h
      · rw [List.head?_cons, Option.some.injEq] at h
        cases h
        exact Bool.not_eq_true _ |>.mp hx

theorem getLast?_dropWhile_eq {p : α → Bool} :
    ∀ {l : List α}, l.dropWhile p ≠ [] → (l.dropWhile p).getLast? = l.getLast?
  | [], h => absurd rfl h
  | x :: xs, h => by
      rw [List.dropWhile_cons] at h ⊢
      split_ifs at h ⊢ with hx
      · have hxs : xs ≠ [] := by
          intro he
          exact h (by simp [he])
        rw [getLast?_dropWhile_eq h]
        cases xs with
        | nil => exact absurd rfl hxs
        | cons y ys => rw [List.getLast?_cons_cons]
      · rfl

theorem dropWhile_append_all {p : α → Bool} {w : List α}
    (hw : ∀ c ∈ w, p c = true) (l : List α) :
    (w ++ l).dropWhile p = l.dropWhile p := by
  induction w with
  | nil => rfl
  | cons x xs ih =>
      rw [List.cons_append, List.dropWhile_cons,
        if_pos (hw x (List.mem_cons_self x xs))]
      exact ih fun c hc => hw c (List.mem_cons_of_mem x hc)

theorem dropWhile_append_of_ne_nil {p : α → Bool} {w : List α} :
    ∀ {l : List α}, l.dropWhile p ≠ [] →
      (l ++ w).dropWhile p = l.dropWhile p ++ w
  | [], h => absurd rfl h
  | x :: xs, h => by
      rw [List.dropWhile_cons] at h ⊢
      rw [List.cons_append, List.dropWhile_cons]
      split_ifs at h ⊢ with hx
      · exact dropWhile_append_of_ne_nil h
      · rfl

theorem stripList_head_not_space {l : List Char} {c : Char}
    (h : (stripList l).head? = some c) : pyIsSpace c = false := by
  unfold stripList at h
  rw [List.head?_reverse] at h
  have hne : (((l.dropWhile pyIsSpace).reverse).dropWhile pyIsSpace) ≠ [] := by
    intro he
    rw [he] at h
    cases h
  rw [getLast?_dropWhile_eq hne, List.getLast?_reverse] at h
  exact head?_dropWhile_false h

theorem stripList_getLast_not_space {l : List Char} {c : Char}
    (h : (stripList l).getLast? = some c) : pyIsSpace c = false := by
  unfold stripList at h
  rw [List.getLast?_reverse] at h
  exact head?_dropWhile_false h

theorem stripList_pad {w₁ w₂ l : List Char}
    (h₁ : ∀ c ∈ w₁, pyIsSpace c = true) (h₂ : ∀ c ∈ w₂, pyIsSpace c = true) :
    stripList (w₁ ++ l ++ w₂) = stripList l := by
  unfold stripList
  rw [List.append_assoc, dropWhile_append_all h₁]
  by_cases hd : l.dropWhile pyIsSpace = []
  · have hlw : ∀ c ∈ l, pyIsSpace c = true := List.dropWhile_eq_nil_iff.1 hd
    rw [dropWhile_append_all hlw, List.dropWhile_eq_nil_iff.2 h₂, hd]
  · rw [dropWhile_append_of_ne_nil hd, List.reverse_append,
      dropWhile_append_all fun c hc => h₂ c (List.mem_reverse.1 hc)]

/-- C9: class and topic names are stored trimmed — the key inserted by
createClass / createTopic is the stripped input, a stripped name never
begins or ends with whitespace, and inputs differing only in surrounding
whitespace strip to the same key. -/
theorem claim_C9_trimmed_names (store : Store) (cls name : String)
    (w₁ w₂ : List Char) (s : String)
    (hw₁ : ∀ c ∈ w₁, pyIsSpace c = true) (hw₂ : ∀ c ∈ w₂, pyIsSpace c = true) :
    (∀ store', createClass store name = .ok store' →
        store' = store ++ [(pyStrip name, [])]) ∧
    (∀ store', createTopic store cls name = .ok store' →
        store' = updAssoc cls (fun t => t ++ [(pyStrip name, [])]) store) ∧
    (∀ c, (pyStrip name).data.head? = some c → pyIsSpace c = false) ∧
    (∀ c, (pyStrip name).data.getLast? = some c → pyIsSpace c = false) ∧
    pyStrip ⟨w₁ ++ s.data ++ w₂⟩ = pyStrip s := by
  refine ⟨?_, ?_, fun c h => stripList_head_not_space h,
    fun c h => stripList_getLast_not_space h, ?_⟩
  · intro store' h
    simp only [createClass] at h
    split_ifs at h
    cases h
    rfl
  · intro store' h
    simp only [createTopic] at h
    split_ifs at h with h1
    cases hl : lookupA cls store with
    | none => rw [hl] at h; cases h
    | some topics =>
        rw [hl] at h
        dsimp only at h
        split_ifs at h
        cases h
        rfl
  · exact String.ext (stripList_pad hw₁ hw₂)

/-- C9 witness: creating class and topic " A " in store `[("c", [])]`
stores the key "A", whose ends are non-whitespace, and " A " strips the
same as "A" with its padding removed. -/
theorem claim_C9_trimmed_names_witness :
    ([("c", []), ("A", [])] : Store) = [("c", [])] ++ [(pyStrip " A ", [])] ∧
    ([("c", [("A", [])])] : Store) =
      updAssoc "c" (fun t => t ++ [(pyStrip " A ", [])]) [("c", [])] ∧
    pyIsSpace 'A' = false ∧
    pyStrip ⟨[' '] ++ "A".data ++ [' ']⟩ = pyStrip "A" := by
  have h := claim_C9_trimmed_names [("c", [])] "c" " A " [' '] [' '] "A"
    (by decide) (by decide)
  exact ⟨h.1 [("c", []), ("A", [])] rfl,
         h.2.1 [("c", [("A", [])])] rfl,
         h.2.2.1 'A' rfl,
         h.2.2.2.2⟩

theorem get_cons_set_perm :
    ∀ (xs : List α) (m : Nat) (h : m < xs.length) (x : α),
      List.Perm (xs.get ⟨m, h⟩ :: xs.set m x) (x :: xs)
  | y :: ys, 0, _, x => List.Perm.swap x y ys
  | y :: ys, m + 1, h, x => by
      have hm : m < ys.length := by simpa using h
      have ih := get_cons_set_perm ys m hm x
      have h1 : List.Perm (ys.get ⟨m, hm⟩ :: y :: ys.set m x)
          (y :: ys.get ⟨m, hm⟩ :: ys.set m x) := List.Perm.swap y _ _
      have h2 : List.Perm (y :: ys.get ⟨m, hm⟩ :: ys.set m x) (y :: x :: ys) :=
        List.Perm.cons y ih
      have h3 : List.Perm (y :: x :: ys) (x :: y :: ys) := List.Perm.swap x y ys
      exact (h1.trans h2).trans h3

theorem set_get_set_perm :
    ∀ (l : List α) (i j : Nat) (hi : i < l.length) (hj : j < l.length),
      List.Perm ((l.set i (l.get ⟨j, hj⟩)).set j (l.get ⟨i, hi⟩)) l
  | [], i, _, hi, _ => absurd hi (by simp)
  | x :: xs, 0, 0, _, _ => by simp
  | x :: xs, 0, k + 1, _, hj => by
      have hk : k < xs.length := by simpa using hj
      exact get_cons_set_perm xs k hk x
  | x :: xs, m + 1, 0, hi, _ => by
      have hm : m < xs.length := by simpa using hi
      exact get_cons_set_perm xs m hm x
  | x :: xs, m + 1, k + 1, hi, hj => by
      have hm : m < xs.length := by simpa using hi
      have hk : k < xs.length := by simpa using hj
      exact List.Perm.cons x (set_get_set_perm xs m k hm hk)

theorem listSwap_perm (l : List α) (i j : Nat) : List.Perm (listSwap l i j) l := by
  unfold listSwap
  split_ifs with h
  · exact set_get_set_perm l i j h.1 h.2
  · exact List.Perm.refl l

theorem fyAux_perm : ∀ (i : Nat) (js : List Nat) (l : List α), List.Perm (fyAux l i js) l
  | 0, _, l => List.Perm.refl l
  | _ + 1, [], l => List.Perm.refl l
  | i + 1, j :: js, l =>
      (fyAux_perm i js (listSwap l (i + 1) (j % (i + 2)))).trans
        (listSwap_perm l (i + 1) (j % (i + 2)))

theorem pyShuffle_perm (js : List Nat) (l : List α) : List.Perm (pyShuffle js l) l :=
  fyAux_perm (l.length - 1) js l

/-- C4: with shuffle off, the deck built over "All Topics" is exactly the
concatenation of each topic's card list in topic insertion order, each
card tagged with its topic's name; with shuffle on, the deck is a
permutation of that concatenation, whatever the random draws were. -/
theorem claim_C4_buildDeck (store : Store) (cls : String) (js : List Nat) :
    buildDeck store cls false js = allCardsOf store cls ∧
    allCardsOf store cls =
      (((lookupA cls store).getD []).map fun tc =>
        tc.2.map fun c => ⟨c, tc.1⟩).flatten ∧
    List.Perm (buildDeck store cls true js) (buildDeck store cls false js) := by
  refine ⟨rfl, rfl, ?_⟩
  exact pyShuffle_perm js (allCardsOf store cls)

theorem cardOfJson_cardToJson (c : Card) : cardOfJson (cardToJson c) = some c := by
  obtain ⟨q, a, i⟩ := c
  cases i <;> rfl

theorem topicOfJson_topicToJson (cards : List Card) :
    topicOfJson (topicToJson cards) = some cards := by
  unfold topicToJson topicOfJson
  induction cards with
  | nil => rfl
  | cons c cs ih =>
      simp only [List.map_cons, List.mapM_cons, cardOfJson_cardToJson,
        Option.pure_def, Option.bind_eq_bind, Option.some_bind] at ih ⊢
      rw [ih]
      rfl

theorem classOfJson_classToJson (topics : Topics) :
    classOfJson (classToJson topics) = some topics := by
  unfold classToJson classOfJson
  induction topics with
  | nil => rfl
  | cons tc rest ih =>
      simp only [List.map_cons, List.mapM_cons, topicOfJson_topicToJson,
        Option.map_some', Option.pure_def, Option.bind_eq_bind,
        Option.some_bind] at ih ⊢
      rw [ih]
      rfl

/-- C7: serializing any store to the persisted JSON document and loading
it back yields the identical hierarchy — same class names in the same
order, same topic names per class in the same order, and the same
question / answer text / answer image values in the same card order. -/
theorem claim_C7_round_trip (store : Store) :
    storeOfJson (storeToJson store) = some store := by
  unfold storeToJson storeOfJson
  induction store with
  | nil => rfl
  | cons ct rest ih =>
      simp only [List.map_cons, List.mapM_cons, classOfJson_classToJson,
        Option.map_some', Option.pure_def, Option.bind_eq_bind,
        Option.some_bind] at ih ⊢
      rw [ih]
      rfl

/-- C10 counterexample: `"data:image/png;base64,A"` contains a comma, yet
`save_b64` raises (`b64decode` rejects a single data character), so
`save_b64` is not total on comma-containing inputs. -/
theorem claim_C10_save_b64_cex :
    (splitOnce ',' ("data:image/png;base64,A" : String).data).isSome = true ∧
    save_b64 "0123456789" "data:image/png;base64,A" = .error () :=
  ⟨rfl, rfl⟩

/-- C10 (amended): `save_b64` raises on an input with no comma (the
two-name unpacking fails); on an input with a comma it splits header from
payload, picks the extension by the first match among jpeg→jpg, jpg, gif,
webp in the header (png when none occurs), and — when the payload is
base64 the decoder accepts — writes the decoded payload under
`paste_<hex>.<ext>`; a payload the decoder rejects raises even though the
input contains a comma. -/
theorem claim_C10_save_b64 (hex10 url : String) (header payload : List Char) :
    (splitOnce ',' url.data = none → save_b64 hex10 url = .error ()) ∧
    (splitOnce ',' url.data = some (header, payload) →
       (∀ bytes, pyB64Decode payload = .ok bytes →
          save_b64 hex10 url =
            .ok (IMAGES_DIR ++ "/paste_" ++ hex10 ++ "." ++ extFor header, bytes)) ∧
       (pyB64Decode payload = .error () → save_b64 hex10 url = .error ())) ∧
    (hasSub "jpeg".data header = true → extFor header = "jpg") ∧
    (hasSub "jpeg".data header = false → hasSub "jpg".data header = true →
       extFor header = "jpg") ∧
    (hasSub "jpeg".data header = false → hasSub "jpg".data header = false →
       hasSub "gif".data header = true → extFor header = "gif") ∧
    (hasSub "jpeg".data header = false → hasSub "jpg".data header = false →
       hasSub "gif".data header = false → hasSub "webp".data header = true →
       extFor header = "webp") ∧
    (hasSub "jpeg".data header = false → hasSub "jpg".data header = false →
       hasSub "gif".data header = false → hasSub "webp".data header = false →
       extFor header = "png") := by
  refine ⟨?_, ?_, ?_, ?_, ?_, ?_, ?_⟩
  · intro h
    simp only [save_b64, h]
  · intro h
    constructor
    · intro bytes hb
      simp only [save_b64, h, hb]
    · intro hb
      simp only [save_b64, h, hb]
  · intro h1
    simp [extFor, h1]
  · intro h1 h2
    simp [extFor, h1, h2]
  · intro h1 h2 h3
    simp [extFor, h1, h2, h3]
  · intro h1 h2 h3 h4
    simp [extFor, h1, h2, h3, h4]
  · intro h1 h2 h3 h4
    simp [extFor, h1, h2, h3, h4]

/-- C10 witness: a png data-URL with payload "TWFu" is stored as
`paste_<hex>.png` with bytes `Man`; an input with no comma raises. -/
theorem claim_C10_save_b64_witness :
    save_b64 "0123456789" "data:image/png;base64,TWFu" =
      .ok (IMAGES_DIR ++ "/paste_" ++ "0123456789" ++ "." ++
        extFor ("data:image/png;base64" : String).data, [77, 97, 110]) ∧
    save_b64 "0123456789" "noCommaHere" = .error () :=
  ⟨((claim_C10_save_b64 "0123456789" "data:image/png;base64,TWFu"
      ("data:image/png;base64" : String).data ("TWFu" : String).data).2.1
      (by decide)).1 [77, 97, 110] rfl,
   (claim_C10_save_b64 "0123456789" "noCommaHere" [] []).1 (by decide)⟩

end Flash
